import Mathlib

/-!
Verification of `valuecell/core/task/manager.py` (class `TaskManager`).

The manager keeps an in-memory mapping `task_id → Task` and drives the
task lifecycle with guarded transition operations.  The mapping is
embedded as an association list with unique keys (a Python `dict`:
insertion appends, overwrite replaces in place); each operation is a
pure function from the manager state to a result paired with the new
state.  The `Task` entity itself lives in `models.py`, which is not part
of the sources; its fields and behaviour hooks are modelled from the
spec where noted.
-/

namespace ValueCell

/-- Modelled from the spec: the status enumeration of the external `Task`
collaborator (`models.py`, not in the sources): PENDING, RUNNING,
COMPLETED, FAILED, CANCELLED. -/
inductive TaskStatus where
  | pending
  | running
  | completed
  | failed
  | cancelled
deriving DecidableEq

/-- Modelled from the spec: the external `Task` entity (`models.py`, not in
the sources) with the fields the manager touches: `task_id`,
`conversation_id`, `status`, `updated_at`, and the error message attached
by `fail`.  Timestamps are modelled as natural numbers. -/
structure Task where
  task_id : String
  conversation_id : String
  status : TaskStatus
  updated_at : Nat
  error_message : Option String
deriving DecidableEq

/-- Modelled from the spec: the `start()` hook performs the transition to
RUNNING. -/
def Task.start (t : Task) : Task :=
  { t with status := TaskStatus.running }

/-- Modelled from the spec: the `complete()` hook performs the transition
to COMPLETED. -/
def Task.complete (t : Task) : Task :=
  { t with status := TaskStatus.completed }

/-- Modelled from the spec: the `fail(message)` hook performs the
transition to FAILED, attaching the error message. -/
def Task.fail (t : Task) (message : String) : Task :=
  { t with status := TaskStatus.failed, error_message := some message }

/-- Modelled from the spec: the `cancel()` hook performs the transition to
CANCELLED. -/
def Task.cancel (t : Task) : Task :=
  { t with status := TaskStatus.cancelled }

/-- Modelled from the spec: `is_finished()` reports whether the status is
one of COMPLETED, FAILED, CANCELLED. -/
def Task.is_finished (t : Task) : Bool :=
  match t.status with
  | TaskStatus.completed => true
  | TaskStatus.failed => true
  | TaskStatus.cancelled => true
  | _ => false

/-- Lookup in the task map: `self._tasks.get(task_id)`. -/
def getTask : List (String × Task) → String → Option Task
  | [], _ => none
  | p :: rest, k => if p.1 = k then some p.2 else getTask rest k

/-- Store into the task map: `self._tasks[k] = v`.  A Python dict keeps
the position of an existing key on overwrite and appends a fresh key. -/
def setTask : List (String × Task) → String → Task → List (String × Task)
  | [], k, v => [(k, v)]
  | p :: rest, k, v => if p.1 = k then (k, v) :: rest else p :: setTask rest k v

/-- The `TaskManager` state: the in-memory store keyed by `task_id`
(`self._tasks`).  The asyncio lock serializes the operations, so each
operation is embedded as one atomic function on this state. -/
structure TaskManager where
  tasks : List (String × Task)
deriving DecidableEq

/-- `_update_task_no_lock`: write the task to the store, without
modifying timestamps (`self._tasks[task.task_id] = task`). -/
def TaskManager.update_task_no_lock (m : TaskManager) (task : Task) : TaskManager :=
  ⟨setTask m.tasks task.task_id task⟩

/-- `update_task`: stamp `updated_at` with the current time, then write
the task to the store.  The current time is passed explicitly. -/
def TaskManager.update_task (m : TaskManager) (task : Task) (now : Nat) : TaskManager :=
  m.update_task_no_lock { task with updated_at := now }

/-- `start_task`: fail when the task is missing or its status is not
PENDING; otherwise invoke `task.start()` and persist. -/
def TaskManager.start_task (m : TaskManager) (task_id : String) : Bool × TaskManager :=
  match getTask m.tasks task_id with
  | none => (false, m)
  | some task =>
      if task.status ≠ TaskStatus.pending then (false, m)
      else (true, m.update_task_no_lock task.start)

/-- `complete_task`: fail when the task is missing or already finished;
otherwise invoke `task.complete()` and persist. -/
def TaskManager.complete_task (m : TaskManager) (task_id : String) : Bool × TaskManager :=
  match getTask m.tasks task_id with
  | none => (false, m)
  | some task =>
      if task.is_finished then (false, m)
      else (true, m.update_task_no_lock task.complete)

/-- `fail_task`: fail when the task is missing or already finished;
otherwise invoke `task.fail(error_message)` and persist. -/
def TaskManager.fail_task (m : TaskManager) (task_id : String) (error_message : String) :
    Bool × TaskManager :=
  match getTask m.tasks task_id with
  | none => (false, m)
  | some task =>
      if task.is_finished then (false, m)
      else (true, m.update_task_no_lock (task.fail error_message))

/-- `cancel_task`: fail when the task is missing or already finished;
otherwise invoke `task.cancel()` and persist. -/
def TaskManager.cancel_task (m : TaskManager) (task_id : String) : Bool × TaskManager :=
  match getTask m.tasks task_id with
  | none => (false, m)
  | some task =>
      if task.is_finished then (false, m)
      else (true, m.update_task_no_lock task.cancel)

/-- The loop of `cancel_conversation_tasks` over the snapshot of matching
tasks: each not-yet-finished task is cancelled and persisted, and
counted. -/
def cancelLoop (m : TaskManager) : List Task → Nat → Nat × TaskManager
  | [], acc => (acc, m)
  | t :: rest, acc =>
      if t.is_finished then cancelLoop m rest acc
      else cancelLoop (m.update_task_no_lock t.cancel) rest (acc + 1)

/-- `cancel_conversation_tasks`: under one guard acquisition, snapshot the
tasks of the conversation, cancel each unfinished one, and return the
count of tasks actually cancelled. -/
def TaskManager.cancel_conversation_tasks (m : TaskManager) (conversation_id : String) :
    Nat × TaskManager :=
  let tasks := (m.tasks.map Prod.snd).filter (fun t => t.conversation_id == conversation_id)
  cancelLoop m tasks 0

/-- Well-formedness of a reachable manager state: the store keys are
distinct (it embeds a dict) and every task is stored under its own
`task_id` (every write uses `task.task_id` as the key). -/
def WF (m : TaskManager) : Prop :=
  (m.tasks.map Prod.fst).Nodup ∧ ∀ p ∈ m.tasks, p.2.task_id = p.1

instance (m : TaskManager) : Decidable (WF m) := by
  unfold WF
  infer_instance

/-- Pointwise description of the effect of the cancellation loop run on
the snapshot `L`: a task is cancelled exactly when it is in the snapshot
and not yet finished. -/
def cancelIf (L : List Task) (t : Task) : Task :=
  if t ∈ L ∧ t.is_finished = false then t.cancel else t

/-- Pointwise description of the effect of `cancel_conversation_tasks c`
on a stored task: cancelled exactly when it belongs to conversation `c`
and is not yet finished. -/
def cancelledView (c : String) (t : Task) : Task :=
  if t.conversation_id = c ∧ t.is_finished = false then t.cancel else t

-- sanity checks of the embedding on the spec scenarios
def exTaskP : Task :=
  { task_id := "t1", conversation_id := "conv-1", status := TaskStatus.pending,
    updated_at := 0, error_message := none }

def exTaskR : Task :=
  { exTaskP with task_id := "t2", conversation_id := "conv-2", status := TaskStatus.running }

def exTaskC : Task :=
  { exTaskP with task_id := "t3", conversation_id := "conv-2", status := TaskStatus.completed }

def exMgr : TaskManager :=
  ⟨[("t1", exTaskP), ("t2", exTaskR), ("t3", exTaskC)]⟩

example : WF exMgr := by decide

example : (exMgr.start_task "t1").1 = true := by decide

example : ((exMgr.start_task "t1").2.start_task "t1").1 = false := by decide

example : (exMgr.cancel_conversation_tasks "conv-2").1 = 1 := by decide

example :
    (getTask (exMgr.cancel_conversation_tasks "conv-2").2.tasks "t3").map Task.status =
      some TaskStatus.completed := by decide

example :
    (getTask (exMgr.cancel_conversation_tasks "conv-2").2.tasks "t2").map Task.status =
      some TaskStatus.cancelled := by decide

/-! ### Basic facts about the store operations -/

theorem getTask_setTask_self (es : List (String × Task)) (k : String) (v : Task) :
    getTask (setTask es k v) k = some v := by
  induction es with
  | nil => simp [setTask, getTask]
  | cons p rest ih =>
      by_cases h : p.1 = k
      · simp [setTask, h, getTask]
      · simp [setTask, h, getTask, ih]

theorem getTask_setTask_ne (es : List (String × Task)) (k k2 : String) (v : Task)
    (h : k ≠ k2) : getTask (setTask es k v) k2 = getTask es k2 := by
  induction es with
  | nil => simp [setTask, getTask, h]
  | cons p rest ih =>
      by_cases hp : p.1 = k
      · simp [setTask, hp, getTask, h]
      · by_cases hp2 : p.1 = k2
        · have h2 : ¬k2 = k := fun e => h e.symm
          simp [setTask, getTask, hp, hp2, h2]
        · simp [setTask, hp, getTask, hp2, ih]

theorem getTask_mem {es : List (String × Task)} {k : String} {t : Task}
    (h : getTask es k = some t) : (k, t) ∈ es := by
  induction es with
  | nil => simp [getTask] at h
  | cons p rest ih =>
      by_cases hp : p.1 = k
      · simp [getTask, hp] at h
        subst hp
        subst h
        exact List.mem_cons_self _ _
      · simp [getTask, hp] at h
        exact List.mem_cons_of_mem _ (ih h)

theorem keys_setTask (es : List (String × Task)) (k : String) (v : Task) :
    (setTask es k v).map Prod.fst =
      if k ∈ es.map Prod.fst then es.map Prod.fst else es.map Prod.fst ++ [k] := by
  induction es with
  | nil => simp [setTask]
  | cons p rest ih =>
      by_cases hp : p.1 = k
      · simp [setTask, hp]
      · have hne : ¬k = p.1 := fun h => hp h.symm
        by_cases hk : k ∈ rest.map Prod.fst
        · simp [setTask, hp, ih, hk, hne]
        · simp [setTask, hp, ih, hk, hne]

theorem getTask_map_val (g : Task → Task) (es : List (String × Task)) (k : String) :
    getTask (es.map (fun p => (p.1, g p.2))) k = (getTask es k).map g := by
  induction es with
  | nil => simp [getTask]
  | cons p rest ih =>
      by_cases hp : p.1 = k
      · simp [getTask, hp]
      · simp [getTask, hp, ih]

theorem keys_map_val (g : Task → Task) (es : List (String × Task)) :
    (es.map (fun p => (p.1, g p.2))).map Prod.fst = es.map Prod.fst := by
  rw [List.map_map]
  rfl

theorem setTask_of_mem {es : List (String × Task)} {k : String} {t : Task} (v : Task)
    (hnd : (es.map Prod.fst).Nodup) (hmem : (k, t) ∈ es) :
    setTask es k v = es.map (fun p => if p.1 = k then (k, v) else p) := by
  induction es with
  | nil => simp at hmem
  | cons p rest ih =>
      simp only [List.map_cons, List.nodup_cons] at hnd
      by_cases hp : p.1 = k
      · have hrest : ∀ q ∈ rest, ¬q.1 = k := by
          intro q hq hq1
          apply hnd.1
          rw [hp, ← hq1]
          exact List.mem_map_of_mem Prod.fst hq
        have hid : rest.map (fun p => if p.1 = k then (k, v) else p) = rest.map id := by
          apply List.map_congr_left
          intro q hq
          simp [hrest q hq]
        simp [setTask, hp, hid]
      · have hmem2 : (k, t) ∈ rest := by
          rcases List.mem_cons.mp hmem with h | h
          · exact absurd (congrArg Prod.fst h.symm) hp
          · exact h
        simp [setTask, hp, ih hnd.2 hmem2]

/-! ### The cancellation loop -/

theorem Task.cancel_is_finished (t : Task) : t.cancel.is_finished = true := rfl

theorem Task.cancel_task_id (t : Task) : t.cancel.task_id = t.task_id := rfl

theorem cancelIf_cons_of_finished {t : Task} (rest : List Task) (u : Task)
    (h : t.is_finished = true) : cancelIf (t :: rest) u = cancelIf rest u := by
  by_cases hu : u = t
  · subst hu
    simp [cancelIf, h]
  · simp [cancelIf, List.mem_cons, hu]

theorem cancelIf_cons_of_ne {t u : Task} (rest : List Task) (h : ¬u = t) :
    cancelIf (t :: rest) u = cancelIf rest u := by
  simp [cancelIf, List.mem_cons, h]

/-- The loop of the batch cancel, run on a snapshot `L` of tasks that are
all stored in the map under their own ids, pairwise distinct: it cancels
exactly the unfinished snapshot tasks in place and counts them. -/
theorem cancelLoop_eq (L : List Task) :
    ∀ (es : List (String × Task)) (acc : Nat),
      (es.map Prod.fst).Nodup →
      (∀ p ∈ es, p.2.task_id = p.1) →
      (∀ t ∈ L, (t.task_id, t) ∈ es) →
      (L.map Task.task_id).Nodup →
      cancelLoop ⟨es⟩ L acc =
        (acc + (L.filter (fun t => !t.is_finished)).length,
         ⟨es.map (fun p => (p.1, cancelIf L p.2))⟩) := by
  induction L with
  | nil =>
      intro es acc _ _ _ _
      have hid : es.map (fun p => (p.1, cancelIf [] p.2)) = es.map id := by
        apply List.map_congr_left
        intro p _
        simp [cancelIf]
      simp [cancelLoop, hid]
  | cons t rest ih =>
      intro es acc hnd hwf hmem hLnd
      simp only [List.map_cons, List.nodup_cons] at hLnd
      by_cases hfin : t.is_finished
      · have hmap : es.map (fun p => (p.1, cancelIf (t :: rest) p.2)) =
            es.map (fun p => (p.1, cancelIf rest p.2)) := by
          apply List.map_congr_left
          intro p _
          rw [cancelIf_cons_of_finished rest p.2 hfin]
        have hcount : ((t :: rest).filter (fun u => !u.is_finished)) =
            rest.filter (fun u => !u.is_finished) := by
          simp [List.filter_cons, hfin]
        simp only [cancelLoop, hfin, if_pos]
        rw [ih es acc hnd hwf (fun u hu => hmem u (List.mem_cons_of_mem _ hu)) hLnd.2,
          hmap, hcount]
      · have hfin2 : t.is_finished = false := by
          simpa using hfin
        have hte : (t.task_id, t) ∈ es := hmem t (List.mem_cons_self _ _)
        have hset := setTask_of_mem (t := t) t.cancel hnd hte
        have hkeys : ((es.map fun p => if p.1 = t.task_id then (t.task_id, t.cancel) else p).map
            Prod.fst) = es.map Prod.fst := by
          rw [List.map_map]
          apply List.map_congr_left
          intro p _
          by_cases hp : p.1 = t.task_id
          · simp [Function.comp, hp]
          · simp [Function.comp, hp]
        have hwf2 : ∀ p ∈ es.map fun p => if p.1 = t.task_id then (t.task_id, t.cancel) else p,
            p.2.task_id = p.1 := by
          intro p hp
          rcases List.mem_map.mp hp with ⟨q, hq, rfl⟩
          by_cases hq1 : q.1 = t.task_id
          · simp [hq1, Task.cancel_task_id]
          · simp [hq1, hwf q hq]
        have hmem2 : ∀ u ∈ rest,
            (u.task_id, u) ∈ es.map fun p => if p.1 = t.task_id then (t.task_id, t.cancel) else p := by
          intro u hu
          have hne : ¬u.task_id = t.task_id := by
            intro he
            exact hLnd.1 (he ▸ List.mem_map_of_mem Task.task_id hu)
          have := List.mem_map_of_mem
            (fun p => if p.1 = t.task_id then (t.task_id, t.cancel) else p) (hmem u (List.mem_cons_of_mem _ hu))
          simpa [hne] using this
        have hfix : ∀ p ∈ es, p = (t.task_id, t) ∨ ¬p.1 = t.task_id := by
          intro p hp
          by_cases hp1 : p.1 = t.task_id
          · left
            exact List.inj_on_of_nodup_map hnd hp hte hp1
          · right
            exact hp1
        have hmap : ((es.map fun p => if p.1 = t.task_id then (t.task_id, t.cancel) else p).map
              fun p => (p.1, cancelIf rest p.2)) =
            es.map (fun p => (p.1, cancelIf (t :: rest) p.2)) := by
          rw [List.map_map]
          apply List.map_congr_left
          intro p hp
          rcases hfix p hp with rfl | hp1
          · simp only [Function.comp_apply, if_pos rfl]
            have h1 : cancelIf rest t.cancel = t.cancel := by
              simp [cancelIf, Task.cancel_is_finished]
            have h2 : cancelIf (t :: rest) t = t.cancel := by
              simp [cancelIf, List.mem_cons, hfin2]
            simp [h1, h2]
          · have hpt : ¬p.2 = t := by
              intro he
              exact hp1 (by rw [← hwf p hp, he])
            simp only [Function.comp_apply, if_neg hp1]
            rw [cancelIf_cons_of_ne rest hpt]
        have hcount : (t :: rest).filter (fun u => !u.is_finished) =
            t :: rest.filter (fun u => !u.is_finished) := by
          simp [List.filter_cons, hfin2]
        simp only [cancelLoop, hfin2, Bool.false_eq_true, if_neg, not_false_iff,
          TaskManager.update_task_no_lock, Task.cancel_task_id]
        rw [hset,
          ih _ (acc + 1) (by rw [hkeys]; exact hnd) hwf2 hmem2 hLnd.2, hmap, hcount]
        simp only [List.length_cons, Prod.mk.injEq, and_true]
        omega

/-- Characterization of the batch cancel on a well-formed state: the count
is the number of stored tasks of conversation `c` that are not finished,
and the resulting store is the pointwise `cancelledView`. -/
theorem cancel_conversation_tasks_char (m : TaskManager) (c : String) (h : WF m) :
    m.cancel_conversation_tasks c =
      (((m.tasks.map Prod.snd).filter
          (fun t => t.conversation_id == c && !t.is_finished)).length,
       ⟨m.tasks.map (fun p => (p.1, cancelledView c p.2))⟩) := by
  obtain ⟨hnd, hwf⟩ := h
  have hvals : (m.tasks.map Prod.snd).map Task.task_id = m.tasks.map Prod.fst := by
    rw [List.map_map]
    apply List.map_congr_left
    intro p hp
    exact hwf p hp
  have hmem : ∀ t ∈ (m.tasks.map Prod.snd).filter (fun t => t.conversation_id == c),
      (t.task_id, t) ∈ m.tasks := by
    intro t ht
    have ht2 : t ∈ m.tasks.map Prod.snd := List.mem_of_mem_filter ht
    rcases List.mem_map.mp ht2 with ⟨p, hp, rfl⟩
    have : p.2.task_id = p.1 := hwf p hp
    rw [this]
    exact hp
  have hLnd : (((m.tasks.map Prod.snd).filter
      (fun t => t.conversation_id == c)).map Task.task_id).Nodup := by
    apply List.Nodup.sublist (List.Sublist.map Task.task_id (List.filter_sublist _))
    rw [hvals]
    exact hnd
  have hchar := cancelLoop_eq
    ((m.tasks.map Prod.snd).filter (fun t => t.conversation_id == c))
    m.tasks 0 hnd hwf hmem hLnd
  rw [TaskManager.cancel_conversation_tasks, hchar]
  have hcount : (((m.tasks.map Prod.snd).filter
        (fun t => t.conversation_id == c)).filter (fun t => !t.is_finished)).length =
      ((m.tasks.map Prod.snd).filter
        (fun t => t.conversation_id == c && !t.is_finished)).length := by
    rw [List.filter_filter]
    congr 1
    apply List.filter_congr
    intro t _
    exact Bool.and_comm _ _
  have hmap : m.tasks.map (fun p =>
        (p.1, cancelIf ((m.tasks.map Prod.snd).filter (fun t => t.conversation_id == c)) p.2)) =
      m.tasks.map (fun p => (p.1, cancelledView c p.2)) := by
    apply List.map_congr_left
    intro p hp
    have hv : p.2 ∈ m.tasks.map Prod.snd := List.mem_map_of_mem Prod.snd hp
    have hiff : (p.2 ∈ (m.tasks.map Prod.snd).filter (fun t => t.conversation_id == c)) ↔
        p.2.conversation_id = c := by
      rw [List.mem_filter]
      constructor
      · intro hx
        exact of_decide_eq_true (by simpa using hx.2)
      · intro hx
        exact ⟨hv, by simpa using hx⟩
    simp only [cancelIf, cancelledView, hiff]
  rw [hcount, hmap]
  simp

/-- When every task of the snapshot is already finished, the loop counts
nothing and the state is untouched. -/
theorem cancelLoop_all_finished (L : List Task) :
    ∀ (m : TaskManager) (acc : Nat), (∀ t ∈ L, t.is_finished = true) →
      cancelLoop m L acc = (acc, m) := by
  induction L with
  | nil => intro m acc _; rfl
  | cons t rest ih =>
      intro m acc h
      have hfin : t.is_finished = true := h t (List.mem_cons_self _ _)
      simp only [cancelLoop, hfin, if_pos]
      exact ih m acc fun u hu => h u (List.mem_cons_of_mem _ hu)

/-- After the batch cancel, every stored task of conversation `c` is
finished. -/
theorem cancel_conversation_post_finished (m : TaskManager) (c : String) (h : WF m) :
    ∀ t ∈ (m.cancel_conversation_tasks c).2.tasks.map Prod.snd,
      t.conversation_id = c → t.is_finished = true := by
  rw [cancel_conversation_tasks_char m c h]
  intro t ht hc
  simp only [List.map_map] at ht
  rcases List.mem_map.mp ht with ⟨p, _, rfl⟩
  simp only [Function.comp_apply] at hc ⊢
  by_cases hcond : p.2.conversation_id = c ∧ p.2.is_finished = false
  · simp [cancelledView, hcond, Task.cancel_is_finished]
  · simp only [cancelledView, if_neg hcond] at hc ⊢
    cases hf : p.2.is_finished with
    | false => exact absurd ⟨hc, hf⟩ hcond
    | true => rfl

/-- On a well-formed state, a stored task sits under its own id. -/
theorem getTask_task_id {m : TaskManager} (h : WF m) {k : String} {t : Task}
    (hg : getTask m.tasks k = some t) : t.task_id = k :=
  h.2 _ (getTask_mem hg)

/-! ### Claim statements and theorems -/

/-- Statement of claim C1 for one manager state and one task id. -/
def C1Stmt (m : TaskManager) (id msg : String) : Prop :=
  ((m.complete_task id).1 = true ↔ ∃ t, getTask m.tasks id = some t ∧ t.is_finished = false)
  ∧ ((m.fail_task id msg).1 = true ↔ ∃ t, getTask m.tasks id = some t ∧ t.is_finished = false)
  ∧ ((m.cancel_task id).1 = true ↔ ∃ t, getTask m.tasks id = some t ∧ t.is_finished = false)
  ∧ ((m.complete_task id).1 = true →
      (getTask (m.complete_task id).2.tasks id).map Task.status = some TaskStatus.completed)
  ∧ ((m.fail_task id msg).1 = true →
      (getTask (m.fail_task id msg).2.tasks id).map Task.status = some TaskStatus.failed)
  ∧ ((m.cancel_task id).1 = true →
      (getTask (m.cancel_task id).2.tasks id).map Task.status = some TaskStatus.cancelled)
  ∧ ((m.complete_task id).1 = false → (m.complete_task id).2 = m)
  ∧ ((m.fail_task id msg).1 = false → (m.fail_task id msg).2 = m)
  ∧ ((m.cancel_task id).1 = false → (m.cancel_task id).2 = m)
  ∧ (∀ t : Task, t.is_finished = false ↔
      (t.status = TaskStatus.pending ∨ t.status = TaskStatus.running))

/-- C1: `complete_task`, `fail_task`, `cancel_task` each succeed iff the
task exists and `is_finished()` was false at call time; after success the
task has the respective terminal status; on failure the call returns
false and the whole registry state is unchanged; the precondition accepts
any non-finished starting status (PENDING or RUNNING). -/
theorem claim_c1_terminal_ops (m : TaskManager) (id msg : String) (h : WF m) :
    C1Stmt m id msg := by
  have hstat : ∀ t : Task, t.is_finished = false ↔
      (t.status = TaskStatus.pending ∨ t.status = TaskStatus.running) := by
    intro t
    cases ht : t.status <;> simp [Task.is_finished, ht]
  cases hg : getTask m.tasks id with
  | none =>
      refine ⟨?_, ?_, ?_, ?_, ?_, ?_, ?_, ?_, ?_, hstat⟩ <;>
        simp [TaskManager.complete_task, TaskManager.fail_task, TaskManager.cancel_task, hg]
  | some t =>
      have hid : t.task_id = id := getTask_task_id h hg
      by_cases hf : t.is_finished
      · refine ⟨?_, ?_, ?_, ?_, ?_, ?_, ?_, ?_, ?_, hstat⟩ <;>
          simp [TaskManager.complete_task, TaskManager.fail_task, TaskManager.cancel_task, hg, hf]
      · have hf2 : t.is_finished = false := by simpa using hf
        have hget : ∀ u : Task, u.task_id = id →
            getTask (m.update_task_no_lock u).tasks id = some u := by
          intro u hu
          rw [TaskManager.update_task_no_lock, hu]
          exact getTask_setTask_self m.tasks id u
        have hcomp : m.complete_task id = (true, m.update_task_no_lock t.complete) := by
          simp [TaskManager.complete_task, hg, hf2]
        have hfail : m.fail_task id msg = (true, m.update_task_no_lock (t.fail msg)) := by
          simp [TaskManager.fail_task, hg, hf2]
        have hcanc : m.cancel_task id = (true, m.update_task_no_lock t.cancel) := by
          simp [TaskManager.cancel_task, hg, hf2]
        refine ⟨?_, ?_, ?_, ?_, ?_, ?_, ?_, ?_, ?_, hstat⟩
        · rw [hcomp]
          exact ⟨fun _ => ⟨t, hg, hf2⟩, fun _ => rfl⟩
        · rw [hfail]
          exact ⟨fun _ => ⟨t, hg, hf2⟩, fun _ => rfl⟩
        · rw [hcanc]
          exact ⟨fun _ => ⟨t, hg, hf2⟩, fun _ => rfl⟩
        · intro _
          rw [hcomp, hget t.complete hid]
          rfl
        · intro _
          rw [hfail, hget (t.fail msg) hid]
          rfl
        · intro _
          rw [hcanc, hget t.cancel hid]
          rfl
        · simp [hcomp]
        · simp [hfail]
        · simp [hcanc]

/-- Statement of claim C2 for one manager state and one task id. -/
def C2Stmt (m : TaskManager) (id : String) : Prop :=
  ((m.start_task id).1 = true ↔ ∃ t, getTask m.tasks id = some t ∧ t.status = TaskStatus.pending)
  ∧ ((m.start_task id).1 = true →
      (getTask (m.start_task id).2.tasks id).map Task.status = some TaskStatus.running)
  ∧ ((m.start_task id).1 = false → (m.start_task id).2 = m)
  ∧ ((m.start_task id).1 = true → ((m.start_task id).2.start_task id).1 = false)

/-- C2: `start_task` succeeds iff the task exists with status exactly
PENDING; after success the status is RUNNING; on precondition failure it
returns false with no mutation; a second `start_task` right after a
successful one fails. -/
theorem claim_c2_start_task (m : TaskManager) (id : String) (h : WF m) :
    C2Stmt m id := by
  cases hg : getTask m.tasks id with
  | none =>
      refine ⟨?_, ?_, ?_, ?_⟩ <;> simp [TaskManager.start_task, hg]
  | some t =>
      have hid : t.task_id = id := getTask_task_id h hg
      by_cases hp : t.status = TaskStatus.pending
      · have hget : getTask (m.update_task_no_lock t.start).tasks id = some t.start := by
          rw [TaskManager.update_task_no_lock]
          show getTask (setTask m.tasks t.task_id t.start) id = some t.start
          rw [hid]
          exact getTask_setTask_self m.tasks id t.start
        have hstart : m.start_task id = (true, m.update_task_no_lock t.start) := by
          simp [TaskManager.start_task, hg, hp]
        refine ⟨?_, ?_, ?_, ?_⟩
        · rw [hstart]
          exact ⟨fun _ => ⟨t, hg, hp⟩, fun _ => rfl⟩
        · intro _
          rw [hstart, hget]
          rfl
        · simp [hstart]
        · intro _
          rw [hstart]
          have hs : t.start.status = TaskStatus.running := rfl
          simp only [TaskManager.start_task, hget, hs]
          simp
      · refine ⟨?_, ?_, ?_, ?_⟩ <;>
          simp [TaskManager.start_task, hg, hp]

/-- C5: `update_task` unconditionally succeeds, stores the task keyed by
its `task_id` (overwriting any prior record) and stamps `updated_at` with
the current time, so a subsequent lookup of that id returns a task with
the same `task_id` and an `updated_at` at least the time of the call. -/
theorem claim_c5_record (m : TaskManager) (t : Task) (now : Nat) :
    ∃ u, getTask (m.update_task t now).tasks t.task_id = some u
      ∧ u.task_id = t.task_id ∧ u.updated_at = now ∧ now ≤ u.updated_at
      ∧ u = { t with updated_at := now } := by
  refine ⟨{ t with updated_at := now }, ?_, rfl, rfl, le_refl _, rfl⟩
  rw [TaskManager.update_task, TaskManager.update_task_no_lock]
  exact getTask_setTask_self m.tasks t.task_id { t with updated_at := now }

theorem cancelledView_updated_at (c : String) (t : Task) :
    (cancelledView c t).updated_at = t.updated_at := by
  unfold cancelledView
  split <;> rfl

/-- Statement of claim C3 for one manager state and one conversation. -/
def C3Stmt (m : TaskManager) (c : String) : Prop :=
  ((m.cancel_conversation_tasks c).1 =
    ((m.tasks.map Prod.snd).filter (fun t => t.conversation_id == c && !t.is_finished)).length)
  ∧ (∀ k t, getTask m.tasks k = some t →
      getTask (m.cancel_conversation_tasks c).2.tasks k = some (cancelledView c t))
  ∧ (∀ k t, getTask m.tasks k = some t → ¬t.conversation_id = c →
      getTask (m.cancel_conversation_tasks c).2.tasks k = some t)
  ∧ (∀ k t, getTask m.tasks k = some t → t.conversation_id = c → t.is_finished = true →
      getTask (m.cancel_conversation_tasks c).2.tasks k = some t)
  ∧ (∀ k t, getTask m.tasks k = some t → t.conversation_id = c → t.is_finished = false →
      (getTask (m.cancel_conversation_tasks c).2.tasks k).map Task.status =
        some TaskStatus.cancelled)
  ∧ (∀ k, getTask m.tasks k = none → getTask (m.cancel_conversation_tasks c).2.tasks k = none)

/-- C3: `cancel_conversation_tasks c` returns exactly the number of stored
tasks of conversation `c` that were not finished at call time; afterwards
every task of conversation `c` is either in its prior finished state or
CANCELLED, tasks of other conversations are untouched, and already
finished matching tasks are skipped and not counted. -/
theorem claim_c3_batch_cancel (m : TaskManager) (c : String) (h : WF m) :
    C3Stmt m c := by
  have hchar := cancel_conversation_tasks_char m c h
  have hget : ∀ k, getTask (m.cancel_conversation_tasks c).2.tasks k =
      (getTask m.tasks k).map (cancelledView c) := by
    intro k
    rw [hchar]
    exact getTask_map_val (cancelledView c) m.tasks k
  refine ⟨by rw [hchar], ?_, ?_, ?_, ?_, ?_⟩
  · intro k t hg
    rw [hget, hg]
    rfl
  · intro k t hg hc
    rw [hget, hg]
    have : cancelledView c t = t := by
      unfold cancelledView
      rw [if_neg]
      intro hx
      exact hc hx.1
    rw [Option.map_some', this]
  · intro k t hg _ hf
    rw [hget, hg]
    have : cancelledView c t = t := by
      unfold cancelledView
      rw [if_neg]
      intro hx
      rw [hf] at hx
      exact absurd hx.2 (by simp)
    rw [Option.map_some', this]
  · intro k t hg hc hf
    rw [hget, hg]
    have : cancelledView c t = t.cancel := by
      unfold cancelledView
      rw [if_pos ⟨hc, hf⟩]
    rw [Option.map_some', this]
    rfl
  · intro k hg
    rw [hget, hg]
    rfl

/-- Statement of claim C4 for one manager state, one stored finished task
and arbitrary other inputs. -/
def C4Stmt (m : TaskManager) (id msg c : String) (t : Task) : Prop :=
  m.start_task id = (false, m)
  ∧ m.complete_task id = (false, m)
  ∧ m.fail_task id msg = (false, m)
  ∧ m.cancel_task id = (false, m)
  ∧ (getTask (m.cancel_conversation_tasks c).2.tasks id).map Task.status = some t.status

/-- C4: terminal statuses are sticky — for a stored task whose status is
terminal (`is_finished()` true), none of the transition operations
succeeds, each returns false with the state unchanged, and the batch
cancel leaves the task status unchanged as well. -/
theorem claim_c4_terminal_sticky (m : TaskManager) (id msg c : String) (t : Task)
    (h : WF m) (hg : getTask m.tasks id = some t) (hfin : t.is_finished = true) :
    C4Stmt m id msg c t := by
  have hnp : ¬t.status = TaskStatus.pending := by
    intro hs
    rw [Task.is_finished, hs] at hfin
    simp at hfin
  have hchar := cancel_conversation_tasks_char m c h
  refine ⟨?_, ?_, ?_, ?_, ?_⟩
  · simp [TaskManager.start_task, hg, hnp]
  · simp [TaskManager.complete_task, hg, hfin]
  · simp [TaskManager.fail_task, hg, hfin]
  · simp [TaskManager.cancel_task, hg, hfin]
  · rw [hchar]
    rw [getTask_map_val (cancelledView c) m.tasks id, hg]
    have : cancelledView c t = t := by
      unfold cancelledView
      rw [if_neg]
      intro hx
      rw [hfin] at hx
      exact absurd hx.2 (by simp)
    rw [Option.map_some', this]
    rfl

/-- On a well-formed state, writing a task through the internal path keeps
the `updated_at` of every stored task unchanged whenever the written task
carries the timestamp of the task previously stored under its id. -/
theorem update_no_lock_updated_at_frame (m : TaskManager) (t u : Task) (k : String)
    (hg : getTask m.tasks u.task_id = some t) (hu : u.updated_at = t.updated_at) :
    (getTask (m.update_task_no_lock u).tasks k).map Task.updated_at =
      (getTask m.tasks k).map Task.updated_at := by
  rw [TaskManager.update_task_no_lock]
  by_cases hk : u.task_id = k
  · subst hk
    rw [getTask_setTask_self, hg, Option.map_some', Option.map_some', hu]
  · rw [getTask_setTask_ne m.tasks u.task_id k u hk]

/-- Statement of claim C6 for one manager state and arbitrary inputs. -/
def C6Stmt (m : TaskManager) (id msg c : String) (tsk : Task) (now : Nat) : Prop :=
  (∀ (mm : TaskManager) (u : Task),
      getTask (mm.update_task_no_lock u).tasks u.task_id = some u)
  ∧ (∀ k, (getTask (m.start_task id).2.tasks k).map Task.updated_at =
      (getTask m.tasks k).map Task.updated_at)
  ∧ (∀ k, (getTask (m.complete_task id).2.tasks k).map Task.updated_at =
      (getTask m.tasks k).map Task.updated_at)
  ∧ (∀ k, (getTask (m.fail_task id msg).2.tasks k).map Task.updated_at =
      (getTask m.tasks k).map Task.updated_at)
  ∧ (∀ k, (getTask (m.cancel_task id).2.tasks k).map Task.updated_at =
      (getTask m.tasks k).map Task.updated_at)
  ∧ (∀ k, (getTask (m.cancel_conversation_tasks c).2.tasks k).map Task.updated_at =
      (getTask m.tasks k).map Task.updated_at)
  ∧ getTask (m.update_task tsk now).tasks tsk.task_id = some { tsk with updated_at := now }

/-- C6: only the top-level `update_task` stamps `updated_at` at the
registry level — the internal write path stores the task verbatim, and
the status-transition operations (including the batch cancel) leave the
`updated_at` of every stored task unchanged. -/
theorem claim_c6_timestamp_frame (m : TaskManager) (id msg c : String) (tsk : Task)
    (now : Nat) (h : WF m) : C6Stmt m id msg c tsk now := by
  have hid0 : ∀ t : Task, getTask m.tasks id = some t → getTask m.tasks t.task_id = some t := by
    intro t hg
    rw [getTask_task_id h hg]
    exact hg
  refine ⟨?_, ?_, ?_, ?_, ?_, ?_, ?_⟩
  · intro mm u
    rw [TaskManager.update_task_no_lock]
    exact getTask_setTask_self mm.tasks u.task_id u
  · intro k
    cases hg : getTask m.tasks id with
    | none => simp [TaskManager.start_task, hg]
    | some t =>
        by_cases hp : t.status = TaskStatus.pending
        · have hstart : (m.start_task id).2 = m.update_task_no_lock t.start := by
            simp [TaskManager.start_task, hg, hp]
          rw [hstart]
          exact update_no_lock_updated_at_frame m t t.start k (hid0 t hg) rfl
        · simp [TaskManager.start_task, hg, hp]
  · intro k
    cases hg : getTask m.tasks id with
    | none => simp [TaskManager.complete_task, hg]
    | some t =>
        by_cases hf : t.is_finished
        · simp [TaskManager.complete_task, hg, hf]
        · have hf2 : t.is_finished = false := by simpa using hf
          have hcomp : (m.complete_task id).2 = m.update_task_no_lock t.complete := by
            simp [TaskManager.complete_task, hg, hf2]
          rw [hcomp]
          exact update_no_lock_updated_at_frame m t t.complete k (hid0 t hg) rfl
  · intro k
    cases hg : getTask m.tasks id with
    | none => simp [TaskManager.fail_task, hg]
    | some t =>
        by_cases hf : t.is_finished
        · simp [TaskManager.fail_task, hg, hf]
        · have hf2 : t.is_finished = false := by simpa using hf
          have hfail : (m.fail_task id msg).2 = m.update_task_no_lock (t.fail msg) := by
            simp [TaskManager.fail_task, hg, hf2]
          rw [hfail]
          exact update_no_lock_updated_at_frame m t (t.fail msg) k (hid0 t hg) rfl
  · intro k
    cases hg : getTask m.tasks id with
    | none => simp [TaskManager.cancel_task, hg]
    | some t =>
        by_cases hf : t.is_finished
        · simp [TaskManager.cancel_task, hg, hf]
        · have hf2 : t.is_finished = false := by simpa using hf
          have hcanc : (m.cancel_task id).2 = m.update_task_no_lock t.cancel := by
            simp [TaskManager.cancel_task, hg, hf2]
          rw [hcanc]
          exact update_no_lock_updated_at_frame m t t.cancel k (hid0 t hg) rfl
  · intro k
    rw [cancel_conversation_tasks_char m c h]
    rw [getTask_map_val (cancelledView c) m.tasks k]
    cases hg : getTask m.tasks k with
    | none => rfl
    | some t =>
        rw [Option.map_some', Option.map_some', Option.map_some', cancelledView_updated_at]
  · rw [TaskManager.update_task, TaskManager.update_task_no_lock]
    exact getTask_setTask_self m.tasks tsk.task_id { tsk with updated_at := now }

/-- Statement of claim C7 for one manager state and arbitrary inputs. -/
def C7Stmt (m : TaskManager) (id msg c : String) : Prop :=
  (getTask m.tasks id = none →
      m.start_task id = (false, m) ∧ m.complete_task id = (false, m)
      ∧ m.fail_task id msg = (false, m) ∧ m.cancel_task id = (false, m))
  ∧ (∀ t, getTask m.tasks id = some t → ¬t.status = TaskStatus.pending →
      m.start_task id = (false, m))
  ∧ (∀ t, getTask m.tasks id = some t → t.is_finished = true →
      m.complete_task id = (false, m) ∧ m.fail_task id msg = (false, m)
      ∧ m.cancel_task id = (false, m))
  ∧ ((∀ t ∈ m.tasks.map Prod.snd, t.conversation_id = c → t.is_finished = true) →
      m.cancel_conversation_tasks c = (0, m))

/-- C7: the registry raises nothing for expected control flow — every
"cannot transition" outcome (unknown id or wrong current state) is the
very same value `(false, m)`, indistinguishable between the two causes,
and tasks that cannot be cancelled contribute zero to the batch count. -/
theorem claim_c7_no_exceptions (m : TaskManager) (id msg c : String) :
    C7Stmt m id msg c := by
  refine ⟨?_, ?_, ?_, ?_⟩
  · intro hg
    refine ⟨?_, ?_, ?_, ?_⟩ <;>
      simp [TaskManager.start_task, TaskManager.complete_task, TaskManager.fail_task,
        TaskManager.cancel_task, hg]
  · intro t hg hp
    simp [TaskManager.start_task, hg, hp]
  · intro t hg hf
    refine ⟨?_, ?_, ?_⟩ <;>
      simp [TaskManager.complete_task, TaskManager.fail_task, TaskManager.cancel_task, hg, hf]
  · intro hall
    rw [TaskManager.cancel_conversation_tasks]
    apply cancelLoop_all_finished
    intro t ht
    have ht2 := List.mem_filter.mp ht
    exact hall t ht2.1 (by simpa using ht2.2)

/-- When the written task is stored under a key already present, the key
list of the store is unchanged. -/
theorem keys_update_no_lock (m : TaskManager) (u : Task)
    (hk : u.task_id ∈ m.tasks.map Prod.fst) :
    (m.update_task_no_lock u).tasks.map Prod.fst = m.tasks.map Prod.fst := by
  rw [TaskManager.update_task_no_lock]
  show (setTask m.tasks u.task_id u).map Prod.fst = m.tasks.map Prod.fst
  rw [keys_setTask, if_pos hk]

/-- Statement of claim C9 for one manager state and arbitrary inputs. -/
def C9Stmt (m : TaskManager) (id msg c : String) : Prop :=
  ((m.start_task id).2.tasks.map Prod.fst = m.tasks.map Prod.fst)
  ∧ ((m.complete_task id).2.tasks.map Prod.fst = m.tasks.map Prod.fst)
  ∧ ((m.fail_task id msg).2.tasks.map Prod.fst = m.tasks.map Prod.fst)
  ∧ ((m.cancel_task id).2.tasks.map Prod.fst = m.tasks.map Prod.fst)
  ∧ ((m.cancel_conversation_tasks c).2.tasks.map Prod.fst = m.tasks.map Prod.fst)

/-- C9: the status-transition operations preserve the key list of the
store — no task id is added or removed by `start_task`, `complete_task`,
`fail_task`, `cancel_task` or `cancel_conversation_tasks`. -/
theorem claim_c9_keys_preserved (m : TaskManager) (id msg c : String) (h : WF m) :
    C9Stmt m id msg c := by
  have hkey : ∀ t : Task, getTask m.tasks id = some t → t.task_id ∈ m.tasks.map Prod.fst := by
    intro t hg
    rw [getTask_task_id h hg]
    exact List.mem_map_of_mem Prod.fst (getTask_mem hg)
  refine ⟨?_, ?_, ?_, ?_, ?_⟩
  · cases hg : getTask m.tasks id with
    | none => simp [TaskManager.start_task, hg]
    | some t =>
        by_cases hp : t.status = TaskStatus.pending
        · have : (m.start_task id).2 = m.update_task_no_lock t.start := by
            simp [TaskManager.start_task, hg, hp]
          rw [this]
          exact keys_update_no_lock m t.start (hkey t hg)
        · simp [TaskManager.start_task, hg, hp]
  · cases hg : getTask m.tasks id with
    | none => simp [TaskManager.complete_task, hg]
    | some t =>
        by_cases hf : t.is_finished
        · simp [TaskManager.complete_task, hg, hf]
        · have hf2 : t.is_finished = false := by simpa using hf
          have : (m.complete_task id).2 = m.update_task_no_lock t.complete := by
            simp [TaskManager.complete_task, hg, hf2]
          rw [this]
          exact keys_update_no_lock m t.complete (hkey t hg)
  · cases hg : getTask m.tasks id with
    | none => simp [TaskManager.fail_task, hg]
    | some t =>
        by_cases hf : t.is_finished
        · simp [TaskManager.fail_task, hg, hf]
        · have hf2 : t.is_finished = false := by simpa using hf
          have : (m.fail_task id msg).2 = m.update_task_no_lock (t.fail msg) := by
            simp [TaskManager.fail_task, hg, hf2]
          rw [this]
          exact keys_update_no_lock m (t.fail msg) (hkey t hg)
  · cases hg : getTask m.tasks id with
    | none => simp [TaskManager.cancel_task, hg]
    | some t =>
        by_cases hf : t.is_finished
        · simp [TaskManager.cancel_task, hg, hf]
        · have hf2 : t.is_finished = false := by simpa using hf
          have : (m.cancel_task id).2 = m.update_task_no_lock t.cancel := by
            simp [TaskManager.cancel_task, hg, hf2]
          rw [this]
          exact keys_update_no_lock m t.cancel (hkey t hg)
  · rw [cancel_conversation_tasks_char m c h]
    exact keys_map_val (cancelledView c) m.tasks

/-- Statement of claim C10 for one manager state and one conversation. -/
def C10Stmt (m : TaskManager) (c : String) : Prop :=
  ((m.cancel_conversation_tasks c).2.cancel_conversation_tasks c).1 = 0
  ∧ ((m.cancel_conversation_tasks c).2.cancel_conversation_tasks c).2 =
      (m.cancel_conversation_tasks c).2

/-- C10: `cancel_conversation_tasks` is idempotent in effect — a second
immediate call for the same conversation returns 0 and leaves the whole
state unchanged, because the first call leaves every task of the
conversation finished. -/
theorem claim_c10_idempotent (m : TaskManager) (c : String) (h : WF m) :
    C10Stmt m c := by
  have hpost := cancel_conversation_post_finished m c h
  have hsecond : ((m.cancel_conversation_tasks c).2.cancel_conversation_tasks c) =
      (0, (m.cancel_conversation_tasks c).2) := by
    rw [TaskManager.cancel_conversation_tasks]
    apply cancelLoop_all_finished
    intro t ht
    have ht2 := List.mem_filter.mp ht
    exact hpost t ht2.1 (by simpa using ht2.2)
  exact ⟨by rw [hsecond], by rw [hsecond]⟩

/-! ### Concrete witnesses -/

theorem claim_c1_witness : WF exMgr ∧ C1Stmt exMgr "t2" "boom" :=
  ⟨by decide, claim_c1_terminal_ops exMgr "t2" "boom" (by decide)⟩

theorem claim_c2_witness : WF exMgr ∧ C2Stmt exMgr "t1" :=
  ⟨by decide, claim_c2_start_task exMgr "t1" (by decide)⟩

theorem claim_c3_witness : WF exMgr ∧ C3Stmt exMgr "conv-2" :=
  ⟨by decide, claim_c3_batch_cancel exMgr "conv-2" (by decide)⟩

theorem claim_c4_witness : WF exMgr ∧ getTask exMgr.tasks "t3" = some exTaskC
    ∧ exTaskC.is_finished = true ∧ C4Stmt exMgr "t3" "boom" "conv-2" exTaskC :=
  ⟨by decide, by decide, by decide,
    claim_c4_terminal_sticky exMgr "t3" "boom" "conv-2" exTaskC (by decide) (by decide)
      (by decide)⟩

theorem claim_c6_witness : WF exMgr ∧ C6Stmt exMgr "t1" "boom" "conv-2" exTaskP 7 :=
  ⟨by decide, claim_c6_timestamp_frame exMgr "t1" "boom" "conv-2" exTaskP 7 (by decide)⟩

theorem claim_c9_witness : WF exMgr ∧ C9Stmt exMgr "t1" "boom" "conv-2" :=
  ⟨by decide, claim_c9_keys_preserved exMgr "t1" "boom" "conv-2" (by decide)⟩

theorem claim_c10_witness : WF exMgr ∧ C10Stmt exMgr "conv-2" :=
  ⟨by decide, claim_c10_idempotent exMgr "conv-2" (by decide)⟩

end ValueCell
